import Mathlib

/-!
Verification of the diff/patch engine of the `strain` repository
(crates `protean` and `strain`).

The embedding models `protean/src/lib.rs` (the authoritative, more complete
crate) together with the `StrainError` enum of `strain/src/error.rs`:

* `Patch` mirrors `struct Patch { patch_type, validator, value_map }`.
  The Rust `value_map` is a `std::collections::HashMap<String, String>`;
  we model its contents as an association list `List (String × String)`
  whose list order stands for the map's (unspecified, per-instance random)
  iteration order.  `HashMap::insert` overwrites the value of an existing
  key, which `insertAL` reproduces.
* The validator `Rc<dyn Fn(String, String) -> Result<()>>` becomes a
  function `String → String → Except String Unit`; `anyhow` errors are
  modelled by their message `String`.
* A Rust method taking `&mut self` and returning `Result<T>` becomes a
  function returning `Patch × Except String T`: the first component is the
  receiver after the call, the second the returned `Result`.
-/

namespace Protean

/-- Lookup in the association-list model of `HashMap<String, String>`:
returns the value bound to `k`, if any. -/
def lookupAL : List (String × String) → String → Option String
  | [], _ => none
  | (k', v') :: rest, k => if k' = k then some v' else lookupAL rest k

/-- Insertion in the association-list model of `HashMap<String, String>`.
Like `HashMap::insert`, an existing binding of the key is overwritten. -/
def insertAL : List (String × String) → String → String → List (String × String)
  | [], k, v => [(k, v)]
  | (k', v') :: rest, k, v =>
      if k' = k then (k, v) :: rest else (k', v') :: insertAL rest k v

/-- Model of `strain/src/error.rs`: `enum StrainError { ConversionError }`.
Note the enum has no `DecodeError` or `UnknownPathError` variant. -/
inductive StrainError
  | ConversionError
  deriving DecidableEq, Repr

/-- Model of `protean`'s `struct Patch`. -/
structure Patch where
  /-- `patch_type: String` — the name of the struct that created the patch. -/
  patch_type : String
  /-- `validator: Rc<dyn Fn(String, String) -> Result<()>>`. -/
  validator : String → String → Except String Unit
  /-- `value_map: HashMap<String, String>`, as an association list. -/
  value_map : List (String × String)

/-- `Patch::add` (protean/src/lib.rs:121-126):
```
pub fn add(&mut self, key: String, value: String) -> Result<Patch> {
  let validator = &self.validator;
  validator(key.clone(), value.clone())?;
  self.value_map.insert(key, value);
  Ok(self.clone())
}
```
The pair returned is (receiver after the call, returned `Result`). -/
def Patch.add (self : Patch) (key value : String) : Patch × Except String Patch :=
  match self.validator key value with
  | .error e => (self, .error e)
  | .ok _ =>
      let s : Patch := { self with value_map := insertAL self.value_map key value }
      (s, .ok s)

/-- The key combination performed inside `Patch::merge`:
```
let key = match &k[..] {
  "&self" => prefix.to_string(),
  _ => format!("{}.{}", prefix, k),
};
``` -/
def combineKey (pre k : String) : String :=
  if k = "&self" then pre else pre ++ "." ++ k

/-- One step of the fold inside `Patch::merge`: `acc?.add(key, v.clone())`,
where `add`'s `Result<Patch>` (a clone of the mutated accumulator) is what
the fold threads on. -/
def mergeStep (pre : String) (acc : Except String Patch) (kv : String × String) :
    Except String Patch :=
  match acc with
  | .error e => .error e
  | .ok a => (a.add (combineKey pre kv.1) kv.2).2

/-- `Patch::merge` (protean/src/lib.rs:129-141):
```
pub fn merge(&mut self, prefix: &str, patch: Patch) -> Result<Patch> {
  patch.value_map.iter().fold(Ok(self.clone()), |acc, (k, v)| {
    let key = match &k[..] {
      "&self" => prefix.to_string(),
      _ => format!("{}.{}", prefix, k),
    };
    acc?.add(key, v.clone())
  })
}
```
The fold starts from `Ok(self.clone())` and only ever mutates that clone
(and the further clones `add` returns), so the receiver itself is returned
unchanged in the first component. -/
def Patch.merge (self : Patch) (pre : String) (patch : Patch) :
    Patch × Except String Patch :=
  (self, patch.value_map.foldl (mergeStep pre) (.ok self))

/-- `Patch::is_empty` (protean/src/lib.rs:144-146). -/
def Patch.is_empty (self : Patch) : Bool :=
  self.value_map.isEmpty

/-- The validator installed by the default `Patchwork::new_patch`
(protean/src/lib.rs:61-69): it accepts every (key, value) pair
(both TODO checks are absent). -/
def defaultValidator : String → String → Except String Unit :=
  fun _ _ => .ok ()

/-- `Patchwork::new_patch` (protean/src/lib.rs:58-76): an empty patch with
`patch_type = "STRUCT NAME HERE"` and the accept-all validator. -/
def new_patch : Patch :=
  { patch_type := "STRUCT NAME HERE"
    validator := defaultValidator
    value_map := [] }

/-- `Patchwork::apply` (protean/src/lib.rs:77-83, identically
strain/src/lib.rs:58-64):
```
fn apply(&mut self, patch: &Patch) -> Result<()> {
  log::debug!("Applying patch:\n\x7b\x7d", patch);
  // for key in patch.value_map.
  // Split key (recursive calls)
  Ok(())
}
```
The body only logs; the receiver is untouched and `Ok(())` is returned.
The pair returned is (receiver after the call, returned `Result`). -/
def Patchwork.apply {α : Type} (self : α) (patch : Patch) : α × Except String Unit :=
  (self, .ok ())

/-- The `diff` generated by `primitive_patchwork!` (protean/src/lib.rs:161-168),
generic over the leaf type: `beq` is Rust's `PartialEq` (used by
`self != struct2`) and `enc` is `serde_json::to_string` (total on every
primitive the macro is instantiated at — non-finite floats serialize as
`null`):
```
fn diff(&self, struct2: &$type) -> Result<Patch> {
  let mut patch = self.new_patch();
  if self != struct2 {
    patch.add("&self".to_string(), serde_json::to_string(struct2)?)?;
  }
  Ok(patch)
}
``` -/
def diff {α : Type} (beq : α → α → Bool) (enc : α → String) (self struct2 : α) :
    Except String Patch :=
  let patch := new_patch
  if beq self struct2 = false then
    match patch.add "&self" (enc struct2) with
    | (patch2, .ok _) => .ok patch2
    | (_, .error e) => .error e
  else
    .ok patch

/-- `serde_json::to_string` on `i32`: the decimal rendering of the value.
`i32` values are modelled as unbounded `Int`; `diff` only compares and
encodes them, so the 32-bit bound is irrelevant to every claim proved here. -/
def encI32 (n : Int) : String :=
  toString n

/-- `impl Patchwork for i32`'s `diff`, from `primitive_patchwork! {i32}`. -/
def diffI32 (self struct2 : Int) : Except String Patch :=
  diff (fun a b => a == b) encI32 self struct2

/-- Shallow model of Rust `f32`, at which `primitive_patchwork! {f32}` is
instantiated.  `diff` consults only `PartialEq` (through `self != struct2`)
and `serde_json::to_string`, so the model records exactly what those see:
IEEE 754 comparison makes `NAN` unequal to every value, itself included,
while finite values compare by their exact numeric value (represented here
by the rational they denote).  serde_json serializes non-finite floats as
`null`; the rendering chosen for finite values is never consulted by the
development. -/
inductive F32
  | nan
  | finite (q : ℚ)

/-- Rust `PartialEq for f32` restricted to the shapes `F32` distinguishes:
`NAN` is unequal to everything (including itself); finite values compare
by value. -/
def F32.beq : F32 → F32 → Bool
  | .nan, _ => false
  | _, .nan => false
  | .finite a, .finite b => a == b

/-- `serde_json::to_string` on `f32`: non-finite values serialize as
`null`.  (The stand-in rendering of finite values is irrelevant: no theorem
below inspects it.) -/
def F32.enc : F32 → String
  | .nan => "null"
  | .finite q => toString q

/-- `impl Patchwork for f32`'s `diff`, from `primitive_patchwork! {f32}`. -/
def diffF32 (self struct2 : F32) : Except String Patch :=
  diff F32.beq F32.enc self struct2

/-- The "overlay" lookup a successful `merge` fold superimposes on the
receiver's map: the value of the last entry of `l` whose combined key is
`c`, if any.  (Later entries of the fold overwrite earlier ones.) -/
def lookupCombined (pre : String) : List (String × String) → String → Option String
  | [], _ => none
  | kv :: rest, c =>
      match lookupCombined pre rest c with
      | some v => some v
      | none => if combineKey pre kv.1 = c then some kv.2 else none

/-- Patches reachable through the public construction surface:
`new_patch`, then any sequence of `add` and (successful) `merge` calls. -/
inductive Reachable : Patch → Prop
  | base : Reachable new_patch
  | addR (p : Patch) (k v : String) : Reachable p → Reachable (p.add k v).1
  | mergeRet (p other q : Patch) (pre : String) :
      Reachable p → Reachable other → (p.merge pre other).2 = .ok q → Reachable q

/-- Patches reachable through the public construction surface when every
`add` is called with a non-empty key and every `merge` with a non-empty
namespace string. -/
inductive ReachableNE : Patch → Prop
  | base : ReachableNE new_patch
  | addR (p : Patch) (k v : String) : ReachableNE p → k ≠ "" → ReachableNE (p.add k v).1
  | mergeRet (p other q : Patch) (pre : String) :
      ReachableNE p → pre ≠ "" → (p.merge pre other).2 = .ok q → ReachableNE q

/-! Concrete patch instances used to exercise the operations.  All carry the
`patch_type` installed by `new_patch`; validators are either the default
accept-all one or `rejectValidator` below, standing for a macro-generated
validator whose path check fails. -/

/-- A validator that rejects every pair, reporting the offending key as the
error message. -/
def rejectValidator : String → String → Except String Unit :=
  fun key _ => .error key

/-- An empty patch whose validator rejects everything. -/
def rejSelf : Patch :=
  { patch_type := "STRUCT NAME HERE", validator := rejectValidator, value_map := [] }

/-- Two-entry map in one iteration order. -/
def oAB : Patch :=
  { patch_type := "STRUCT NAME HERE", validator := defaultValidator
    value_map := [("a", "x"), ("b", "x")] }

/-- The same two-entry map in the opposite iteration order. -/
def oBA : Patch :=
  { patch_type := "STRUCT NAME HERE", validator := defaultValidator
    value_map := [("b", "x"), ("a", "x")] }

/-- A patch already holding an entry at key `"f"`. -/
def selfWithF : Patch :=
  { patch_type := "STRUCT NAME HERE", validator := defaultValidator
    value_map := [("f", "1")] }

/-- A one-entry patch keyed by the whole-value sentinel. -/
def otherSentinel : Patch :=
  { patch_type := "STRUCT NAME HERE", validator := defaultValidator
    value_map := [("&self", "2")] }

/-- Another one-entry patch keyed by the whole-value sentinel. -/
def otherNine : Patch :=
  { patch_type := "STRUCT NAME HERE", validator := defaultValidator
    value_map := [("&self", "9")] }

/-- A patch whose single path does not name any field of `i32`. -/
def unknownPathPatch : Patch :=
  { patch_type := "STRUCT NAME HERE", validator := defaultValidator
    value_map := [("no_such_field", "42")] }

/-- Two-entry patch, first iteration order. -/
def o1W : Patch :=
  { patch_type := "STRUCT NAME HERE", validator := defaultValidator
    value_map := [("a", "1"), ("b", "2")] }

/-- The same two-entry patch, opposite iteration order. -/
def o2W : Patch :=
  { patch_type := "STRUCT NAME HERE", validator := defaultValidator
    value_map := [("b", "2"), ("a", "1")] }

/-- Result of merging `o1W` into `new_patch` under `"p"`. -/
def m1W : Patch :=
  { patch_type := "STRUCT NAME HERE", validator := defaultValidator
    value_map := [("p.a", "1"), ("p.b", "2")] }

/-- Result of merging `o2W` into `new_patch` under `"p"`. -/
def m2W : Patch :=
  { patch_type := "STRUCT NAME HERE", validator := defaultValidator
    value_map := [("p.b", "2"), ("p.a", "1")] }

/-- A receiver with one pre-existing entry. -/
def selfW : Patch :=
  { patch_type := "STRUCT NAME HERE", validator := defaultValidator
    value_map := [("a", "1")] }

/-- A patch holding a sentinel entry and a field entry. -/
def otherW : Patch :=
  { patch_type := "STRUCT NAME HERE", validator := defaultValidator
    value_map := [("&self", "2"), ("k", "3")] }

/-- Result of merging `otherW` into `selfW` under `"p"`. -/
def mW : Patch :=
  { patch_type := "STRUCT NAME HERE", validator := defaultValidator
    value_map := [("a", "1"), ("p", "2"), ("p.k", "3")] }

/-! ## Association-list lemmas -/

theorem lookupAL_insertAL (m : List (String × String)) (k v k' : String) :
    lookupAL (insertAL m k v) k' = if k = k' then some v else lookupAL m k' := by
  induction m with
  | nil => simp [insertAL, lookupAL]
  | cons hd tl ih =>
      obtain ⟨hk, hv⟩ := hd
      by_cases h : hk = k
      · subst h
        simp only [insertAL, if_pos rfl, lookupAL]
        by_cases h2 : hk = k' <;> simp [h2]
      · simp only [insertAL, if_neg h, lookupAL, ih]
        by_cases h2 : hk = k'
        · subst h2
          have hne : ¬ k = hk := fun hc => h hc.symm
          simp [hne]
        · simp [h2]

theorem mem_insertAL (m : List (String × String)) (k v : String)
    (kv : String × String) : kv ∈ insertAL m k v → kv = (k, v) ∨ kv ∈ m := by
  induction m with
  | nil =>
      intro h
      simp only [insertAL, List.mem_singleton] at h
      exact Or.inl h
  | cons hd tl ih =>
      intro h
      obtain ⟨hk, hv⟩ := hd
      simp only [insertAL] at h
      split at h
      · rcases List.mem_cons.mp h with h1 | h1
        · exact Or.inl h1
        · exact Or.inr (List.mem_cons_of_mem _ h1)
      · rcases List.mem_cons.mp h with h1 | h1
        · rw [h1]
          exact Or.inr (List.mem_cons_self _ _)
        · rcases ih h1 with h2 | h2
          · exact Or.inl h2
          · exact Or.inr (List.mem_cons_of_mem _ h2)

theorem lookupAL_eq_some_of_mem (l : List (String × String)) (k v : String) :
    (l.map Prod.fst).Nodup → (k, v) ∈ l → lookupAL l k = some v := by
  induction l with
  | nil => intro _ h; cases h
  | cons hd tl ih =>
      intro hnd h
      obtain ⟨hk, hv⟩ := hd
      simp only [List.map_cons, List.nodup_cons] at hnd
      rcases List.mem_cons.mp h with h' | h'
      · cases h'
        simp [lookupAL]
      · have hne : hk ≠ k := by
          intro hc
          subst hc
          exact hnd.1 (List.mem_map.mpr ⟨(hk, v), h', rfl⟩)
        simp only [lookupAL, if_neg hne]
        exact ih hnd.2 h'

theorem mem_of_lookupAL_eq_some (l : List (String × String)) (k v : String) :
    lookupAL l k = some v → (k, v) ∈ l := by
  induction l with
  | nil => intro h; simp [lookupAL] at h
  | cons hd tl ih =>
      intro h
      obtain ⟨hk, hv⟩ := hd
      by_cases hkk : hk = k
      · subst hkk
        simp [lookupAL] at h
        rw [h]
        exact List.mem_cons_self _ _
      · simp only [lookupAL, if_neg hkk] at h
        exact List.mem_cons_of_mem _ (ih h)

/-! ## Combined-key lemmas -/

theorem combineKey_inj (pre k1 k2 : String) (h : combineKey pre k1 = combineKey pre k2) :
    k1 = k2 := by
  unfold combineKey at h
  by_cases h1 : k1 = "&self" <;> by_cases h2 : k2 = "&self"
  · rw [h1, h2]
  · rw [if_pos h1, if_neg h2] at h
    have hlen := congrArg String.length h
    rw [String.length_append, String.length_append] at hlen
    have hdot : (".").length = 1 := rfl
    omega
  · rw [if_neg h1, if_pos h2] at h
    have hlen := congrArg String.length h
    rw [String.length_append, String.length_append] at hlen
    have hdot : (".").length = 1 := rfl
    omega
  · rw [if_neg h1, if_neg h2] at h
    have hd := congrArg String.data h
    simp only [String.data_append] at hd
    exact String.ext (List.append_cancel_left hd)

theorem combineKey_ne_empty (pre k : String) (hpre : pre ≠ "") :
    combineKey pre k ≠ "" := by
  unfold combineKey
  by_cases h : k = "&self"
  · rw [if_pos h]
    exact hpre
  · rw [if_neg h]
    intro hc
    have hlen := congrArg String.length hc
    rw [String.length_append, String.length_append] at hlen
    have hdot : (".").length = 1 := rfl
    have hnil : ("" : String).length = 0 := rfl
    omega

theorem lookupCombined_eq_none (pre : String) (l : List (String × String)) (c : String) :
    (∀ kv ∈ l, combineKey pre kv.1 ≠ c) → lookupCombined pre l c = none := by
  induction l with
  | nil => intro _; rfl
  | cons hd tl ih =>
      intro h
      have htl : lookupCombined pre tl c = none :=
        ih fun kv hkv => h kv (List.mem_cons_of_mem _ hkv)
      simp only [lookupCombined, htl]
      rw [if_neg (h hd (List.mem_cons_self _ _))]

theorem lookupCombined_mem (pre : String) (l : List (String × String))
    (kv : String × String) :
    (l.map Prod.fst).Nodup → kv ∈ l →
    lookupCombined pre l (combineKey pre kv.1) = some kv.2 := by
  induction l with
  | nil => intro _ hmem; cases hmem
  | cons hd tl ih =>
      intro hnd hmem
      simp only [List.map_cons, List.nodup_cons] at hnd
      rcases List.mem_cons.mp hmem with h' | h'
      · subst h'
        have htl : lookupCombined pre tl (combineKey pre kv.1) = none := by
          apply lookupCombined_eq_none
          intro kv' hkv' hc
          have hk : kv'.1 = kv.1 := combineKey_inj pre kv'.1 kv.1 hc
          exact hnd.1 (hk ▸ List.mem_map.mpr ⟨kv', hkv', rfl⟩)
        simp [lookupCombined, htl]
      · have hrec := ih hnd.2 h'
        simp [lookupCombined, hrec]

theorem lookupCombined_some (pre : String) (l : List (String × String)) (c v : String) :
    lookupCombined pre l c = some v → ∃ k, combineKey pre k = c ∧ (k, v) ∈ l := by
  induction l with
  | nil => intro h; simp [lookupCombined] at h
  | cons hd tl ih =>
      intro h
      simp only [lookupCombined] at h
      cases hrec : lookupCombined pre tl c with
      | some w =>
          rw [hrec] at h
          cases h
          obtain ⟨k, hk, hmem⟩ := ih hrec
          exact ⟨k, hk, List.mem_cons_of_mem _ hmem⟩
      | none =>
          rw [hrec] at h
          by_cases hc : combineKey pre hd.1 = c
          · rw [if_pos hc] at h
            cases h
            exact ⟨hd.1, hc, List.mem_cons.mpr (Or.inl rfl)⟩
          · rw [if_neg hc] at h
            cases h

theorem lookupCombined_mono (pre : String) (l1 l2 : List (String × String)) (c : String)
    (hnd2 : (l2.map Prod.fst).Nodup)
    (heq : ∀ k, lookupAL l1 k = lookupAL l2 k)
    (hnd1 : (l1.map Prod.fst).Nodup) :
    ∀ v, lookupCombined pre l1 c = some v → lookupCombined pre l2 c = some v := by
  intro v h
  obtain ⟨k, hk, hmem⟩ := lookupCombined_some pre l1 c v h
  have h1 : lookupAL l1 k = some v := lookupAL_eq_some_of_mem l1 k v hnd1 hmem
  have h2 : lookupAL l2 k = some v := (heq k) ▸ h1
  have hmem2 : (k, v) ∈ l2 := mem_of_lookupAL_eq_some l2 k v h2
  have := lookupCombined_mem pre l2 (k, v) hnd2 hmem2
  rw [hk] at this
  exact this

theorem lookupCombined_congr (pre : String) (l1 l2 : List (String × String)) (c : String)
    (hnd1 : (l1.map Prod.fst).Nodup) (hnd2 : (l2.map Prod.fst).Nodup)
    (heq : ∀ k, lookupAL l1 k = lookupAL l2 k) :
    lookupCombined pre l1 c = lookupCombined pre l2 c := by
  cases h1 : lookupCombined pre l1 c with
  | some v => exact (lookupCombined_mono pre l1 l2 c hnd2 heq hnd1 v h1).symm
  | none =>
      cases h2 : lookupCombined pre l2 c with
      | some v =>
          have := lookupCombined_mono pre l2 l1 c hnd1 (fun k => (heq k).symm) hnd2 v h2
          rw [h1] at this
          cases this
      | none => rfl

/-! ## Merge-fold lemmas -/

theorem foldl_mergeStep_error (pre : String) (l : List (String × String)) (e : String) :
    l.foldl (mergeStep pre) (.error e) = .error e := by
  induction l with
  | nil => rfl
  | cons hd tl ih => simpa [List.foldl_cons, mergeStep] using ih

theorem mergeStep_ok_error (pre : String) (a : Patch) (kv : String × String) (e : String)
    (hv : a.validator (combineKey pre kv.1) kv.2 = .error e) :
    mergeStep pre (Except.ok a) kv = Except.error e := by
  simp [mergeStep, Patch.add, hv]

theorem mergeStep_ok_ok (pre : String) (a : Patch) (kv : String × String)
    (hv : a.validator (combineKey pre kv.1) kv.2 = .ok ()) :
    mergeStep pre (Except.ok a) kv =
      Except.ok { a with value_map := insertAL a.value_map (combineKey pre kv.1) kv.2 } := by
  simp [mergeStep, Patch.add, hv]

theorem foldl_mergeStep_ok (pre : String) (l : List (String × String)) (a m : Patch) :
    l.foldl (mergeStep pre) (.ok a) = .ok m →
    m.validator = a.validator ∧ m.patch_type = a.patch_type ∧
    ∀ k0, lookupAL m.value_map k0 =
      match lookupCombined pre l k0 with
      | some v => some v
      | none => lookupAL a.value_map k0 := by
  induction l generalizing a with
  | nil =>
      intro h
      simp only [List.foldl_nil] at h
      cases h
      exact ⟨rfl, rfl, fun k0 => by simp [lookupCombined]⟩
  | cons hd tl ih =>
      intro h
      rw [List.foldl_cons] at h
      cases hv : a.validator (combineKey pre hd.1) hd.2 with
      | error e =>
          rw [mergeStep_ok_error pre a hd e hv, foldl_mergeStep_error] at h
          cases h
      | ok u =>
          cases u
          rw [mergeStep_ok_ok pre a hd hv] at h
          obtain ⟨hval, htype, hlook⟩ := ih _ h
          refine ⟨hval, htype, fun k0 => ?_⟩
          rw [hlook k0]
          simp only [lookupCombined]
          cases hrec : lookupCombined pre tl k0 with
          | some v => rfl
          | none =>
              simp only [lookupAL_insertAL]
              by_cases hck : combineKey pre hd.1 = k0
              · rw [if_pos hck, if_pos hck]
              · rw [if_neg hck, if_neg hck]

theorem foldl_mergeStep_validated (pre : String) (l : List (String × String)) (a m : Patch) :
    l.foldl (mergeStep pre) (.ok a) = .ok m →
    ∀ kv ∈ l, a.validator (combineKey pre kv.1) kv.2 = .ok () := by
  induction l generalizing a with
  | nil => intro _ kv hkv; cases hkv
  | cons hd tl ih =>
      intro h
      rw [List.foldl_cons] at h
      cases hv : a.validator (combineKey pre hd.1) hd.2 with
      | error e =>
          rw [mergeStep_ok_error pre a hd e hv, foldl_mergeStep_error] at h
          cases h
      | ok u =>
          cases u
          rw [mergeStep_ok_ok pre a hd hv] at h
          intro kv hkv
          rcases List.mem_cons.mp hkv with h' | h'
          · subst h'
            exact hv
          · exact ih _ h kv h'

theorem foldl_mergeStep_keys (pre : String) (l : List (String × String)) (a m : Patch)
    (P : String → Prop) (hpre : ∀ k, P (combineKey pre k)) :
    (∀ kv ∈ a.value_map, P kv.1) →
    l.foldl (mergeStep pre) (.ok a) = .ok m →
    ∀ kv ∈ m.value_map, P kv.1 := by
  induction l generalizing a with
  | nil =>
      intro hP h
      simp only [List.foldl_nil] at h
      cases h
      exact hP
  | cons hd tl ih =>
      intro hP h
      rw [List.foldl_cons] at h
      cases hv : a.validator (combineKey pre hd.1) hd.2 with
      | error e =>
          rw [mergeStep_ok_error pre a hd e hv, foldl_mergeStep_error] at h
          cases h
      | ok u =>
          cases u
          rw [mergeStep_ok_ok pre a hd hv] at h
          refine ih _ ?_ h
          intro kv hkv
          rcases mem_insertAL _ _ _ kv hkv with h' | h'
          · rw [h']
            exact hpre hd.1
          · exact hP kv h'

theorem lookupAL_two_swap (k1 k2 v1 v2 : String) (hne : k1 ≠ k2) (k : String) :
    lookupAL [(k1, v1), (k2, v2)] k = lookupAL [(k2, v2), (k1, v1)] k := by
  by_cases h1 : k1 = k <;> by_cases h2 : k2 = k
  · exact absurd (h1.trans h2.symm) hne
  · simp [lookupAL, h1, h2]
  · simp [lookupAL, h1, h2]
  · simp [lookupAL, h1, h2]

/-! ## Claims -/

/-- C1: the spec claims that applying `diff(x, y)` to a mutable copy of `x`
yields a value equal to `y` for leaf types.  The code's `apply` is an
unimplemented stub that returns `Ok(())` without touching the target: at
`x = 5, y = 7` (i32), applying the patch produced by `diff` leaves the copy
of `x` at `5`, which is not `7`. -/
theorem c1_apply_leaves_target_unchanged :
    (diffI32 5 7).map (fun p => (Patchwork.apply (5 : Int) p).1) = Except.ok 5 ∧
    (5 : Int) ≠ 7 :=
  ⟨rfl, by decide⟩

/-- C2: for every pair of values of a primitive type (any instantiation of
`primitive_patchwork!`, with its equality `beq` and serde encoding `enc`),
`diff` returns an empty patch when the values are equal, and otherwise a
patch with exactly one entry keyed by the whole-value sentinel `"&self"`
whose value is the encoding of the right-hand value. -/
theorem c2_primitive_diff {α : Type} (beq : α → α → Bool) (enc : α → String) (x y : α) :
    diff beq enc x y = Except.ok
      { patch_type := "STRUCT NAME HERE", validator := defaultValidator
        value_map := if beq x y then [] else [("&self", enc y)] } := by
  cases hb : beq x y
  · unfold diff
    rw [hb]
    rfl
  · unfold diff
    rw [hb]
    rfl

/-- C3: `Patch::add` consults the bound validator on the (key, value) pair.
If the validator rejects, the error is returned and the entry map is exactly
as before the call; if it accepts, the entry is inserted — overwriting any
existing entry at that key, all other keys untouched — and the updated patch
is returned as the `Ok` payload. -/
theorem c3_add_validator_gate (p : Patch) (key value : String) :
    match p.validator key value with
    | .error e =>
        (p.add key value).1.value_map = p.value_map ∧ (p.add key value).2 = .error e
    | .ok _ =>
        (∀ k, lookupAL (p.add key value).1.value_map k =
            if key = k then some value else lookupAL p.value_map k) ∧
        (p.add key value).2 = .ok (p.add key value).1 := by
  cases hv : p.validator key value with
  | error e => simp [Patch.add, hv]
  | ok u =>
      cases u
      refine ⟨fun k => ?_, by simp [Patch.add, hv]⟩
      simp [Patch.add, hv, lookupAL_insertAL]

/-- C4 counterexample: the claim asserts that after a successful merge all
of `self`'s pre-existing entries are still present.  Merging a sentinel
entry under prefix `"f"` into a receiver that already has an entry at key
`"f"` overwrites it: the result map is exactly `[("f", "2")]`, so the
receiver's original entry `("f", "1")` is gone. -/
theorem c4_merge_overwrites_receiver_entry :
    (selfWithF.merge "f" otherSentinel).2.map Patch.value_map = Except.ok [("f", "2")] ∧
    ("f", "1") ∉ [(("f" : String), ("2" : String))] :=
  ⟨rfl, by decide⟩

/-- C4 (amended): when `merge(prefix, other)` succeeds, the returned patch
maps each of `other`'s entries' combined keys (`prefix` for the sentinel,
`prefix + "." + k` otherwise) to the entry's value, each pair having passed
`self`'s validator; and every key not among the combined keys of `other`
keeps exactly the binding it had in `self` (entries of `self` at colliding
keys are overwritten). -/
theorem c4_merge_result_contents (self other m : Patch) (pre : String)
    (hnd : (other.value_map.map Prod.fst).Nodup)
    (hok : (Patch.merge self pre other).2 = Except.ok m) :
    (∀ kv ∈ other.value_map, lookupAL m.value_map (combineKey pre kv.1) = some kv.2) ∧
    (∀ kv ∈ other.value_map, self.validator (combineKey pre kv.1) kv.2 = Except.ok ()) ∧
    (∀ k0, (∀ kv ∈ other.value_map, combineKey pre kv.1 ≠ k0) →
        lookupAL m.value_map k0 = lookupAL self.value_map k0) := by
  have hfold : other.value_map.foldl (mergeStep pre) (.ok self) = .ok m := hok
  obtain ⟨hval, htype, hlook⟩ := foldl_mergeStep_ok pre other.value_map self m hfold
  refine ⟨fun kv hkv => ?_, foldl_mergeStep_validated pre other.value_map self m hfold,
    fun k0 hk0 => ?_⟩
  · rw [hlook (combineKey pre kv.1),
        lookupCombined_mem pre other.value_map kv hnd hkv]
  · rw [hlook k0, lookupCombined_eq_none pre other.value_map k0 hk0]

/-- Witness for `c4_merge_result_contents` at a concrete merge: merging
`otherW` into `selfW` under prefix `"p"` succeeds with result `mW`; the
sentinel entry lands at key `"p"` and the receiver's entry at `"a"` is
untouched. -/
theorem c4_merge_result_contents_witness :
    lookupAL mW.value_map "p" = some "2" ∧
    lookupAL mW.value_map "a" = lookupAL selfW.value_map "a" := by
  have h := c4_merge_result_contents selfW otherW mW "p" (by decide) rfl
  exact ⟨h.1 ("&self", "2") (List.mem_cons_self _ _), h.2.2 "a" (by decide)⟩

/-- C5 counterexample: the claim asserts that after a successful
`self.merge(prefix, other)` the receiver's own entry map contains `other`'s
entries under their prefixed keys.  Merging a non-empty patch into
`new_patch` succeeds and the returned patch holds the entry at key `"p"`,
but the receiver's entry map is still empty. -/
theorem c5_merge_receiver_keeps_map :
    (new_patch.merge "p" otherNine).1.value_map = [] ∧
    (new_patch.merge "p" otherNine).2.map (fun q => lookupAL q.value_map "p") =
      Except.ok (some "9") :=
  ⟨rfl, rfl⟩

/-- C5 (amended): `merge` does not fold `other`'s entries into the receiver
itself — the fold runs on `self.clone()`, so after the call the receiver is
exactly what it was before; the combined entries exist only in the patch
`merge` returns. -/
theorem c5_merge_modifies_only_returned_patch (self other : Patch) (pre : String) :
    (Patch.merge self pre other).1 = self :=
  rfl

/-- C6: the spec claims `apply` fails with `DecodeError` on undecodable
values and `UnknownPathError` on unknown path segments.  The code's `apply`
is a stub that returns `Ok(())` for every patch — here a patch whose only
path names no field of `i32` — and `StrainError` has no such variants at
all (its sole variant is `ConversionError`). -/
theorem c6_apply_unknown_path_returns_ok :
    Patchwork.apply (5 : Int) unknownPathPatch = ((5 : Int), Except.ok ()) ∧
    unknownPathPatch.value_map = [("no_such_field", "42")] ∧
    ∀ e : StrainError, e = StrainError.ConversionError :=
  ⟨rfl, rfl, fun e => by cases e; rfl⟩

/-- C7 (amended): for every value `x` of a diffable type at which the
type's equality is reflexive — every primitive except floating-point NaN —
`diff(x, x)` succeeds and returns a patch whose `is_empty()` is true. -/
theorem c7_diff_self_empty {α : Type} (beq : α → α → Bool) (enc : α → String) (x : α)
    (h : beq x x = true) :
    (diff beq enc x x).map Patch.is_empty = Except.ok true := by
  unfold diff
  rw [h]
  rfl

/-- Witness for `c7_diff_self_empty` at the i32 instance and `x = 5`. -/
theorem c7_diff_self_empty_witness :
    (diff (fun a b : Int => a == b) encI32 5 5).map Patch.is_empty = Except.ok true :=
  c7_diff_self_empty (fun a b : Int => a == b) encI32 5 (by decide)

/-- C7 counterexample: `f32` is a diffable type (`primitive_patchwork! {f32}`)
and Rust's `NAN != NAN` holds, so `diff(NAN, NAN)` succeeds but returns a
one-entry patch — `is_empty()` is false, refuting the claim for every value
of every diffable type. -/
theorem c7_diff_nan_not_empty :
    (diffF32 F32.nan F32.nan).map Patch.is_empty = Except.ok false :=
  rfl

/-- C8 (amended): on success, `merge` is deterministic up to map equality —
for the same receiver and prefix, two `other` patches holding the same
key-to-value mapping (in whatever iteration order their HashMaps present)
produce results with the same key-to-value mapping. -/
theorem c8_merge_success_deterministic (self o1 o2 m1 m2 : Patch) (pre : String)
    (hnd1 : (o1.value_map.map Prod.fst).Nodup) (hnd2 : (o2.value_map.map Prod.fst).Nodup)
    (heq : ∀ k, lookupAL o1.value_map k = lookupAL o2.value_map k)
    (h1 : (Patch.merge self pre o1).2 = Except.ok m1)
    (h2 : (Patch.merge self pre o2).2 = Except.ok m2) :
    ∀ k0, lookupAL m1.value_map k0 = lookupAL m2.value_map k0 := by
  have hf1 : o1.value_map.foldl (mergeStep pre) (.ok self) = .ok m1 := h1
  have hf2 : o2.value_map.foldl (mergeStep pre) (.ok self) = .ok m2 := h2
  obtain ⟨-, -, hl1⟩ := foldl_mergeStep_ok pre o1.value_map self m1 hf1
  obtain ⟨-, -, hl2⟩ := foldl_mergeStep_ok pre o2.value_map self m2 hf2
  intro k0
  rw [hl1 k0, hl2 k0,
      lookupCombined_congr pre o1.value_map o2.value_map k0 hnd1 hnd2 heq]

/-- Witness for `c8_merge_success_deterministic`: the two iteration orders
of the same two-entry map merge into `new_patch` successfully and the
results agree at key `"p.a"`. -/
theorem c8_merge_success_deterministic_witness :
    lookupAL m1W.value_map "p.a" = lookupAL m2W.value_map "p.a" :=
  c8_merge_success_deterministic new_patch o1W o2W m1W m2W "p" (by decide) (by decide)
    (lookupAL_two_swap "a" "b" "1" "2" (by decide)) rfl rfl "p.a"

/-- C8 counterexample: on failure the result of `merge` depends on the
iteration order of `other`'s entry map.  `oAB` and `oBA` hold the same
mapping (their entry lists are permutations, with identical `patch_type`
and validator), yet merging them into the same receiver — whose validator
rejects every pair, reporting the offending key — returns two different
errors, so merge is not deterministic on equal inputs. -/
theorem c8_merge_error_depends_on_order :
    oAB.value_map.Perm oBA.value_map ∧
    oAB.patch_type = oBA.patch_type ∧
    oAB.validator = oBA.validator ∧
    (rejSelf.merge "p" oAB).2 = Except.error "p.a" ∧
    (rejSelf.merge "p" oBA).2 = Except.error "p.b" ∧
    ("p.a" : String) ≠ "p.b" :=
  ⟨List.Perm.swap _ _ _, rfl, rfl, rfl, rfl, by decide⟩

/-- C9 counterexample: the empty string is a storable key.  `new_patch`
followed by `add("", "v")` succeeds (the default validator accepts every
pair), producing a patch — reachable through the public operations — whose
entry map holds the empty key. -/
theorem c9_empty_key_reachable :
    Reachable ((new_patch.add "" "v").1) ∧
    ("", "v") ∈ ((new_patch.add "" "v").1).value_map :=
  ⟨Reachable.addR new_patch "" "v" Reachable.base, List.mem_cons_self _ _⟩

/-- C9 (amended): every key stored in a patch reachable from `new_patch`
through `add` calls with non-empty keys and `merge` calls with non-empty
prefixes is a non-empty string.  (`add` itself enforces nothing: the
default validator also admits the empty key, as the counterexample shows.) -/
theorem c9_reachable_nonempty_keys (p : Patch) (hp : ReachableNE p) :
    ∀ kv ∈ p.value_map, kv.1 ≠ "" := by
  induction hp with
  | base => intro kv hkv; cases hkv
  | addR q k v hq hk ih =>
      intro kv hkv
      cases hv : q.validator k v with
      | error e =>
          rw [show (Patch.add q k v).1 = q by simp [Patch.add, hv]] at hkv
          exact ih kv hkv
      | ok u =>
          cases u
          rw [show (Patch.add q k v).1 =
                { q with value_map := insertAL q.value_map k v } by
                simp [Patch.add, hv]] at hkv
          rcases mem_insertAL _ _ _ kv hkv with h' | h'
          · rw [h']
            exact hk
          · exact ih kv h'
  | mergeRet q other r pre hq hpre hok ih =>
      have hfold : other.value_map.foldl (mergeStep pre) (.ok q) = .ok r := hok
      exact foldl_mergeStep_keys pre other.value_map q r (fun s => s ≠ "")
        (fun k => combineKey_ne_empty pre k hpre) ih hfold

/-- Witness for `c9_reachable_nonempty_keys`: the patch built by
`new_patch` then `add("k", "v")` stores only the non-empty key `"k"`. -/
theorem c9_reachable_nonempty_keys_witness : ("k" : String) ≠ "" :=
  c9_reachable_nonempty_keys ((new_patch.add "k" "v").1)
    (ReachableNE.addR new_patch "k" "v" ReachableNE.base (by decide))
    ("k", "v") (List.mem_cons_self _ _)

/-- C10: `apply` returns `Ok(())` for every target and every patch
(including non-empty ones) and leaves the target completely unchanged —
its body only logs the patch. -/
theorem c10_apply_is_noop {α : Type} (t : α) (p : Patch) :
    Patchwork.apply t p = (t, Except.ok ()) :=
  rfl

end Protean
